import Mathlib

/-!
Verification of the agent-stream-kit runtime core against its specification.

The Rust sources are shallowly embedded: pure functions become Lean functions,
stateful hub operations become explicit state passing, machine integers become
Nat/Int with explicit bounds where they matter, and fallible operations return
Except.  Floating point payloads of JSON numbers are modelled by their exact
rational values (every float stored inside a serde_json value is finite, and
the embedded operations never perform float arithmetic apart from the
documented integer-to-float rounding, which is modelled exactly below).
-/

namespace ASKit

/-- Error taxonomy (src/agent-stream-kit/src/error.rs), restricted to the
constructors reachable from the embedded operations.  `ChannelAlreadyExists`
is the variant referenced by askit.rs; the messages follow the thiserror
annotations of error.rs. -/
inductive AgentErr where
  | InvalidValue (msg : String)
  | ChannelAlreadyExists
  | EmptySourceHandle
  | EmptyTargetHandle
  | AgentNotFound (id : String)
  | AgentDefinitionNotFound (id : String)
  | StreamNotFound (id : String)
  | SendMessageFailed (msg : String)
  | TxNotInitialized
  | NoConfig
  | UnknownDefName (name : String)
  deriving DecidableEq, Repr

/-- The Display rendering of an error (`e.to_string()` in Rust), following the
thiserror format strings in error.rs. -/
def AgentErr.toMessage : AgentErr → String
  | .InvalidValue m => "Invalid " ++ m ++ " value"
  | .ChannelAlreadyExists => "Channel already exists"
  | .EmptySourceHandle => "Source handle is empty"
  | .EmptyTargetHandle => "Target handle is empty"
  | .AgentNotFound id => "Agent " ++ id ++ " not found"
  | .AgentDefinitionNotFound id => "Agent " ++ id ++ " definition not found"
  | .StreamNotFound id => "Agent stream " ++ id ++ " not found"
  | .SendMessageFailed m => "Failed to send message: " ++ m
  | .TxNotInitialized => "Message sender not initialized"
  | .NoConfig => "No configuration available"
  | .UnknownDefName n => "Unknown agent def name: " ++ n

/-- Lexicographic strict order on strings by code point, which coincides with
the UTF-8 byte order used by Ord for Rust String (and hence by BTreeMap). -/
def strLtAux : List Char → List Char → Bool
  | [], [] => false
  | [], _ :: _ => true
  | _ :: _, [] => false
  | a :: as, b :: bs =>
    if a.toNat < b.toNat then true
    else if b.toNat < a.toNat then false
    else strLtAux as bs

/-- Strict order on strings (Rust `<` on String). -/
def strLt (a b : String) : Bool := strLtAux a.data b.data

/-- Whether the first character sequence begins with the second. -/
def strStartsAux : List Char → List Char → Bool
  | _, [] => true
  | [], _ :: _ => false
  | a :: as, b :: bs => a = b && strStartsAux as bs

/-- Rust str::starts_with: whether `s` begins with `p`. -/
def strStarts (s p : String) : Bool := strStartsAux s.data p.data

/-- Rust byte-slice `s[n..]` for an ASCII split point, as used with the
7-byte marker `config:`. -/
def strDrop (s : String) (n : Nat) : String := ⟨s.data.drop n⟩

/-- Tagged value type (src/agent-stream-kit/src/value.rs), with the image
feature disabled.  `object` carries the entries of the backing BTreeMap in
ascending key order; `number` carries the exact rational value of the f64
payload. -/
inductive AgentValue where
  | unit
  | boolean (b : Bool)
  | integer (i : Int)
  | number (q : ℚ)
  | string (s : String)
  | array (xs : List AgentValue)
  | object (kvs : List (String × AgentValue))

/-- BTreeMap::insert on the sorted entry list: replaces the value when the key
is present, otherwise inserts at the ordered position. -/
def insertAList (k : String) (v : α) : List (String × α) → List (String × α)
  | [] => [(k, v)]
  | (k', v') :: rest =>
    if strLt k k' then (k, v) :: (k', v') :: rest
    else if k = k' then (k, v) :: rest
    else (k', v') :: insertAList k v rest

/-- First-match association lookup (BTreeMap / IndexMap get). -/
def lookupA (l : List (String × α)) (k : String) : Option α :=
  match l with
  | [] => none
  | (k', v) :: rest => if k' = k then some v else lookupA rest k

/-- AgentValue::object_default. -/
def AgentValue.object_default : AgentValue := .object []

/-- AgentValue::set — inserts into an object through the copy-on-write map,
errors with InvalidValue on any other variant. -/
def AgentValue.setKey : AgentValue → String → AgentValue → Except AgentErr AgentValue
  | .object kvs, k, v => .ok (.object (insertAList k v kvs))
  | _, _, _ => .error (.InvalidValue "set can only be called on Object AgentValue")

/-- serde_json::Number — posInt holds a u64, negInt a negative i64, float a
finite f64 modelled by its exact rational value. -/
inductive JsonNumber where
  | posInt (n : Nat)
  | negInt (i : Int)
  | float (q : ℚ)
  deriving DecidableEq, Repr

/-- serde_json::Value with the default (non arbitrary-precision) number
representation.  Object entries are the BTreeMap entries in ascending key
order. -/
inductive Json where
  | null
  | bool (b : Bool)
  | num (n : JsonNumber)
  | str (s : String)
  | arr (xs : List Json)
  | obj (kvs : List (String × Json))

def i64Max : Int := 2 ^ 63 - 1
def i64Min : Int := -(2 ^ 63)

/-- serde_json::Number::as_i64 — posInt within i64 range and negInt convert,
floats never do. -/
def JsonNumber.as_i64 : JsonNumber → Option Int
  | .posInt n => if (n : Int) ≤ i64Max then some (n : Int) else none
  | .negInt i => some i
  | .float _ => none

/-- Round a natural number to the nearest f64 (53-bit significand, ties to
even); exact below 2^53.  Magnitudes stay far below the f64 overflow
threshold for every integer reachable from a serde_json number. -/
def f64OfNat (n : Nat) : ℚ :=
  if n < 2 ^ 53 then (n : ℚ)
  else
    let shift := n.log2 - 52
    let q := n / 2 ^ shift
    let r := n % 2 ^ shift
    let half := 2 ^ (shift - 1)
    let q' := if half < r ∨ (r = half ∧ q % 2 = 1) then q + 1 else q
    ((q' * 2 ^ shift : Nat) : ℚ)

/-- serde_json::Number::as_f64 — total on all three variants; integer payloads
are rounded to the nearest f64. -/
def JsonNumber.as_f64 : JsonNumber → Option ℚ
  | .posInt n => some (f64OfNat n)
  | .negInt i => some (-(f64OfNat i.natAbs))
  | .float q => some q

mutual

/-- AgentValue::from_json (value.rs lines 106-148), image feature disabled. -/
def from_json : Json → Except AgentErr AgentValue
  | .null => .ok .unit
  | .bool b => .ok (.boolean b)
  | .num n =>
    match n.as_i64 with
    | some i => .ok (.integer i)
    | none =>
      match n.as_f64 with
      | some f => .ok (.number f)
      | none => .error (.InvalidValue "numeric")
  | .str s => .ok (.string s)
  | .arr xs =>
    match from_json_list xs with
    | .ok l => .ok (.array l)
    | .error e => .error e
  | .obj kvs =>
    match from_json_entries kvs [] with
    | .ok m => .ok (.object m)
    | .error e => .error e

/-- The element loop of the Array branch of from_json. -/
def from_json_list : List Json → Except AgentErr (List AgentValue)
  | [] => .ok []
  | x :: rest =>
    match from_json x with
    | .ok v =>
      match from_json_list rest with
      | .ok l => .ok (v :: l)
      | .error e => .error e
    | .error e => .error e

/-- The entry loop of the Object branch of from_json: BTreeMap::insert folded
over the source entries in iteration order. -/
def from_json_entries :
    List (String × Json) → List (String × AgentValue) →
    Except AgentErr (List (String × AgentValue))
  | [], acc => .ok acc
  | (k, x) :: rest, acc =>
    match from_json x with
    | .ok v => from_json_entries rest (insertAList k v acc)
    | .error e => .error e

end

mutual

/-- AgentValue::to_json (value.rs lines 150-171), image feature disabled.
Integers re-enter serde_json through From for i64 (posInt when nonnegative,
negInt otherwise); float payloads re-enter through From for f64 (all stored
payloads are finite, so the NaN-to-Null branch of from_f64 is unreachable in
the rational model). -/
def to_json : AgentValue → Json
  | .unit => .null
  | .boolean b => .bool b
  | .integer i => .num (if 0 ≤ i then .posInt i.toNat else .negInt i)
  | .number q => .num (.float q)
  | .string s => .str s
  | .array xs => .arr (to_json_list xs)
  | .object kvs => .obj (to_json_entries kvs)

/-- The element loop of the Array branch of to_json. -/
def to_json_list : List AgentValue → List Json
  | [] => []
  | x :: rest => to_json x :: to_json_list rest

/-- The entry loop of the Object branch of to_json (BTreeMap iteration is in
ascending key order, and inserting ascending keys into the serde_json map
reproduces the same ordered entry list). -/
def to_json_entries : List (String × AgentValue) → List (String × Json)
  | [] => []
  | (k, v) :: rest => (k, to_json v) :: to_json_entries rest

end

mutual

/-- Well-formedness of a serde_json tree: integer payloads respect the u64 /
negative-i64 variant invariants and additionally fit in i64 (the range within
which the round trip is exact), and object entry lists are strictly ascending
in key order, as BTreeMap iteration yields them. -/
def Json.wf : Json → Bool
  | .null => true
  | .bool _ => true
  | .num (.posInt n) => decide ((n : Int) ≤ i64Max)
  | .num (.negInt i) => decide (i64Min ≤ i ∧ i < 0)
  | .num (.float _) => true
  | .str _ => true
  | .arr xs => Json.wf_list xs
  | .obj kvs => Json.wf_entries kvs

/-- Elementwise well-formedness of an array. -/
def Json.wf_list : List Json → Bool
  | [] => true
  | x :: rest => x.wf && Json.wf_list rest

/-- Well-formedness of an object entry list: every key is strictly smaller
than all later keys, and every value is well-formed. -/
def Json.wf_entries : List (String × Json) → Bool
  | [] => true
  | (k, x) :: rest =>
    x.wf && rest.all (fun q => strLt k q.1) && Json.wf_entries rest

end

/-! ## Context (src/agent-stream-kit/src/context.rs) -/

/-- A named item on the context frame stack. -/
structure Frame where
  name : String
  data : AgentValue

/-- Event-scoped context: identity, optional variable bag (im::HashMap) and
optional frame stack (im::Vector).  The Rust mutators take `&self` and return
a fresh value, which the pure embedding captures directly: the receiver is
never modified. -/
structure AgentContext where
  id : Nat
  vars : Option (List (String × AgentValue))
  frames : Option (List Frame)

/-- im::HashMap::insert modelled on the association list of a context variable
bag: replaces an existing binding, otherwise appends. -/
def insertVar (k : String) (v : AgentValue) :
    List (String × AgentValue) → List (String × AgentValue)
  | [] => [(k, v)]
  | (k', v') :: rest =>
    if k' = k then (k, v) :: rest else (k', v') :: insertVar k v rest

/-- AgentContext::get_var. -/
def AgentContext.get_var (ctx : AgentContext) (k : String) : Option AgentValue :=
  match ctx.vars with
  | some vs => lookupA vs k
  | none => none

/-- AgentContext::with_var (context.rs lines 56-68): clones the variable map
(or starts empty), inserts, and returns a fresh context with the same id and
the same frames. -/
def AgentContext.with_var (ctx : AgentContext) (k : String) (v : AgentValue) :
    AgentContext :=
  let vars := match ctx.vars with
    | some vs => vs
    | none => []
  { id := ctx.id, vars := some (insertVar k v vars), frames := ctx.frames }

/-- AgentContext::push_frame (context.rs lines 131-143): clones the frame
stack (or starts empty), pushes at the back, and returns a fresh context with
the same id and the same vars. -/
def AgentContext.push_frame (ctx : AgentContext) (name : String) (data : AgentValue) :
    AgentContext :=
  let frames := match ctx.frames with
    | some fs => fs
    | none => []
  { id := ctx.id, vars := ctx.vars, frames := some (frames ++ [⟨name, data⟩]) }

/-- The Rust numeric cast `usize as i64` on a 64-bit target: wraps modulo
2^64 into the signed range, so inputs in [2^63, 2^64) come out negative. -/
def usizeAsI64 (n : Nat) : Int :=
  let m : Nat := n % 2 ^ 64
  if m < 2 ^ 63 then (m : Int) else (m : Int) - 2 ^ 64

/-- map_frame_data (context.rs lines 88-99): an object_default receiving
`index` and `length` through AgentValue::set, each Result discarded with
`let _ =` while the successful insertion is kept.  The payloads go through
the wrapping casts `index as i64` and `len as i64` of the source. -/
def map_frame_data (index len : Nat) : AgentValue :=
  let d := AgentValue.object_default
  let d := match d.setKey "index" (.integer (usizeAsI64 index)) with
    | .ok d' => d'
    | .error _ => d
  let d := match d.setKey "length" (.integer (usizeAsI64 len)) with
    | .ok d' => d'
    | .error _ => d
  d

/-- AgentContext::push_map_frame (context.rs lines 146-158). -/
def AgentContext.push_map_frame (ctx : AgentContext) (index len : Nat) :
    Except AgentErr AgentContext :=
  if len = 0 then
    .error (.InvalidValue "map frame length must be positive")
  else if index ≥ len then
    .error (.InvalidValue "map frame index is out of bounds")
  else
    .ok (ctx.push_frame "map" (map_frame_data index len))

/-- AgentContext::pop_frame (context.rs lines 224-247): the Rust is_empty
check followed by the pop_back unwrap collapses to one match on getLast?;
when the remaining stack is empty the frames field becomes None. -/
def AgentContext.pop_frame (ctx : AgentContext) : Option Frame × AgentContext :=
  match ctx.frames with
  | none => (none, ctx)
  | some fs =>
    match fs.getLast? with
    | none => (none, ctx)
    | some last =>
      let rest := fs.dropLast
      (some last,
        { id := ctx.id, vars := ctx.vars,
          frames := if rest.isEmpty then none else some rest })

/-- AgentContext::pop_map_frame (context.rs lines 179-191).  The single
quotes that the Rust format string places around the frame name are omitted
from the embedded message text; no theorem observes that text. -/
def AgentContext.pop_map_frame (ctx : AgentContext) : Except AgentErr AgentContext :=
  match ctx.pop_frame with
  | (some f, next) =>
    if f.name = "map" then .ok next
    else .error (.InvalidValue ("Unexpected frame " ++ f.name ++ ", expected map"))
  | (none, _) => .error (.InvalidValue "Missing map frame in context")

/-- The frame at the top of the stack, if any. -/
def AgentContext.lastFrame (ctx : AgentContext) : Option Frame :=
  match ctx.frames with
  | some fs => fs.getLast?
  | none => none

/-- One derivation step on a context (the two derivations named by the
immutability property). -/
inductive DerivStep where
  | withVar (k : String) (v : AgentValue)
  | pushFrame (name : String) (data : AgentValue)

/-- Apply one derivation step. -/
def applyDeriv (ctx : AgentContext) : DerivStep → AgentContext
  | .withVar k v => ctx.with_var k v
  | .pushFrame name data => ctx.push_frame name data

/-- Apply a sequence of derivation steps in order. -/
def applyDerivs (ctx : AgentContext) (steps : List DerivStep) : AgentContext :=
  steps.foldl applyDeriv ctx

/-! ## Hub events, messages, routing (askit.rs, message.rs, agent.rs) -/

/-- Agent lifecycle status (agent.rs lines 12-18). -/
inductive AgentStatus where
  | init
  | start
  | stop
  deriving DecidableEq, Repr

/-- Observer events (askit.rs lines 1001-1008). -/
inductive ASKitEvent where
  | AgentConfigUpdated (agent_id key : String) (value : AgentValue)
  | AgentError (agent_id message : String)
  | AgentIn (agent_id pin : String)
  | AgentSpecUpdated (agent_id : String)
  | Board (name : String) (value : AgentValue)

/-- Mailbox messages, as matched by the worker loop and built by agent_input
in askit.rs. -/
inductive AgentMessage where
  | input (ctx : AgentContext) (pin : String) (value : AgentValue)
  | config (key : String) (value : AgentValue)
  | configs (cfgs : List (String × AgentValue))
  | stop

/-- (target agent id, source handle, target handle) entries of one source. -/
abbrev ChannelTargets := List (String × String × String)

/-- The channels table: source agent id mapped to its target entries
(askit.rs line 37), an insertion-ordered map modelled as an association
list. -/
abbrev ChannelTable := List (String × ChannelTargets)

/-- One agent_input call made by the event loop on behalf of a routed
event. -/
structure Delivery where
  target : String
  ctx : AgentContext
  pin : String
  value : AgentValue

/-- The per-entry loop of agent_out (message.rs lines 92-121): skip when the
source pin matches neither the emitted pin nor the wildcard, skip silently
when the target agent is absent from the agents table, and resolve a wildcard
target pin to the emitted pin. -/
def agent_out_loop (agents : List String) (ctx : AgentContext) (pin : String)
    (value : AgentValue) : ChannelTargets → List Delivery
  | [] => []
  | (target_agent, source_pin, target_pin) :: rest =>
    if source_pin ≠ pin ∧ source_pin ≠ "*" then
      agent_out_loop agents ctx pin value rest
    else if ¬ agents.contains target_agent then
      agent_out_loop agents ctx pin value rest
    else
      let tp := if target_pin = "*" then pin else target_pin
      ⟨target_agent, ctx, tp, value⟩ :: agent_out_loop agents ctx pin value rest

/-- agent_out (message.rs lines 75-122): the event-loop processing of one
AgentOut event, returning the sequence of agent_input deliveries it makes.
It reads a snapshot of the channels table and the agents table and changes no
hub state. -/
def agent_out (channels : ChannelTable) (agents : List String) (source : String)
    (ctx : AgentContext) (pin : String) (value : AgentValue) : List Delivery :=
  match lookupA channels source with
  | none => []
  | some targets => agent_out_loop agents ctx pin value targets

/-- Written from the words of the routing claim: for every channel-table
entry under the source, a delivery happens exactly when the source pin
matches the emitted pin or is the wildcard and the target agent is present,
and the delivered pin is the emitted pin when the target pin is the wildcard
and the target pin otherwise. -/
def agent_out_claim (channels : ChannelTable) (agents : List String) (source : String)
    (ctx : AgentContext) (pin : String) (value : AgentValue) : List Delivery :=
  ((lookupA channels source).getD []).filterMap fun e =>
    if (e.2.1 = pin ∨ e.2.1 = "*") ∧ agents.contains e.1 then
      some ⟨e.1, ctx, if e.2.2 = "*" then pin else e.2.2, value⟩
    else none

/-! ## AsAgent adapter (agent.rs) and the worker loop (askit.rs) -/

/-- The blanket Agent::stop for AsAgent implementations (agent.rs lines
237-242): sets the status to Stop, runs the inner stop, and resets the status
to Init only when the inner stop returns Ok; an inner error propagates through
the question-mark operator before the reset runs. -/
def as_agent_stop (inner : Except AgentErr Unit) : AgentStatus × Except AgentErr Unit :=
  match inner with
  | .ok _ => (AgentStatus.init, .ok ())
  | .error e => (AgentStatus.stop, .error e)

/-- The blanket Agent::process for AsAgent implementations (agent.rs lines
244-256): on an inner error it emits an AgentError observer event carrying
the Display rendering of the error and returns the error. -/
def as_agent_process (agent_id : String) (inner : Except AgentErr Unit) :
    List ASKitEvent × Except AgentErr Unit :=
  match inner with
  | .ok _ => ([], .ok ())
  | .error e => ([.AgentError agent_id e.toMessage], .error e)

/-- Effects of one iteration of the worker loop. -/
structure WorkerStep where
  events : List ASKitEvent
  sends : List Delivery
  looping : Bool

/-- One iteration of the worker loop spawned by ASKit::start_agent (askit.rs
lines 618-649), handling a single mailbox message.  A process error is only
logged by the loop; the loop itself sends no value on any pin and continues
with the next message.  `sends` collects the try_send_agent_out calls made by
the loop body on behalf of the runtime (there are none). -/
def agent_loop_step (agent_id : String)
    (inner_process : AgentContext → String → AgentValue → Except AgentErr Unit)
    (msg : AgentMessage) : WorkerStep :=
  match msg with
  | .input ctx pin value =>
    let r := as_agent_process agent_id (inner_process ctx pin value)
    { events := r.1, sends := [], looping := true }
  | .config _key _value => { events := [], sends := [], looping := true }
  | .configs _ => { events := [], sends := [], looping := true }
  | .stop => { events := [], sends := [], looping := false }

/-- Outcome of ASKit::start_agent together with the prefix of the spawned
worker. -/
structure StartOutcome where
  txs : List String
  status : AgentStatus
  result : Except AgentErr Unit
  looping : Bool
  events : List ASKitEvent

/-- ASKit::start_agent (askit.rs lines 572-665) sequentialized with the
prefix of the worker it spawns, up to the point where the worker either
enters its receive loop or returns because the inner start failed.  The
mailbox sender is inserted into agent_txs before the worker is spawned and is
not removed when the inner start fails; the blanket Agent::start (agent.rs
lines 225-235) sets the status to Start before invoking the inner callback,
emits an AgentError observer event when the callback errors, and leaves the
status unchanged in that case.  start_agent itself returns Ok in both cases
because the worker runs asynchronously. -/
def start_agent (agentPresent defPresent : Bool) (status : AgentStatus)
    (inner_start : Except AgentErr Unit) (txs : List String) (agent_id : String) :
    StartOutcome :=
  if ¬agentPresent then
    ⟨txs, status, .error (.AgentNotFound agent_id), false, []⟩
  else if ¬defPresent then
    ⟨txs, status, .error (.AgentDefinitionNotFound agent_id), false, []⟩
  else if status = .init then
    let txs' := if txs.contains agent_id then txs else txs ++ [agent_id]
    match inner_start with
    | .ok _ => ⟨txs', .start, .ok (), true, []⟩
    | .error e => ⟨txs', .start, .ok (), false, [.AgentError agent_id e.toMessage]⟩
  else
    ⟨txs, status, .ok (), false, []⟩

/-- The action agent_input takes on behalf of the caller. -/
inductive InputAction where
  | sentToMailbox (msg : AgentMessage)
  | syncSetConfig (key : String) (value : AgentValue)
  | droppedInput

/-- ASKit::agent_input (askit.rs lines 758-805).  `hasTx` is whether a
mailbox sender is registered for the agent (running), `present` whether the
agent is in the agents table, `sendOk` whether the mailbox send succeeds (it
fails only when the worker has dropped its receiver), and `set_config` the
synchronous call used when the agent is not running.  The AgentIn observer
event is emitted only after a successful mailbox send, and carries the full
incoming pin string. -/
def agent_input (hasTx present sendOk : Bool)
    (set_config : String → AgentValue → Except AgentErr Unit)
    (agent_id : String) (ctx : AgentContext) (pin : String) (value : AgentValue) :
    Except AgentErr (InputAction × List ASKitEvent) :=
  let message : AgentMessage :=
    if strStarts pin "config:" then .config (strDrop pin 7) value
    else .input ctx pin value
  if hasTx then
    if sendOk then .ok (.sentToMailbox message, [.AgentIn agent_id pin])
    else .error (.SendMessageFailed "Failed to send input message")
  else if present then
    match message with
    | .config k v =>
      match set_config k v with
      | .ok _ => .ok (.syncSetConfig k v, [])
      | .error e => .error e
    | _ => .ok (.droppedInput, [])
  else
    .error (.AgentNotFound agent_id)

/-- The observer events produced by an agent_input call. -/
def inputEvents (r : Except AgentErr (InputAction × List ASKitEvent)) : List ASKitEvent :=
  match r with
  | .ok (_, evs) => evs
  | .error _ => []

/-! ## Channel table operations (askit.rs) -/

/-- A channel: the quadruple is its identity. -/
structure ChannelSpec where
  source : String
  source_handle : String
  target : String
  target_handle : String

/-- Whether a target entry list contains the quadruple of a channel. -/
def quadrupleIn (targets : ChannelTargets) (c : ChannelSpec) : Bool :=
  targets.any fun e =>
    e.1 = c.target && e.2.1 = c.source_handle && e.2.2 = c.target_handle

/-- Replace the value stored under a key of an association-list map. -/
def setA (l : List (String × α)) (k : String) (v : α) : List (String × α) :=
  l.map fun p => if p.1 = k then (k, v) else p

/-- IndexMap::swap_remove: drops the key (the order perturbation of the
surviving entries is observed by no claim). -/
def removeA (l : List (String × α)) (k : String) : List (String × α) :=
  l.filter fun p => p.1 ≠ k

/-- ASKit::add_channel_internal (askit.rs lines 434-455): rejects an existing
quadruple with ChannelAlreadyExists, otherwise appends to the source entry
(creating it when absent). -/
def add_channel_internal (channels : ChannelTable) (c : ChannelSpec) :
    Except AgentErr ChannelTable :=
  match lookupA channels c.source with
  | some targets =>
    if quadrupleIn targets c then .error .ChannelAlreadyExists
    else .ok (setA channels c.source
      (targets ++ [(c.target, c.source_handle, c.target_handle)]))
  | none =>
    .ok (channels ++ [(c.source, [(c.target, c.source_handle, c.target_handle)])])

/-- ASKit::remove_channel_internal (askit.rs lines 557-569): retains the
entries differing from the quadruple and drops the source key when its list
becomes empty. -/
def remove_channel_internal (channels : ChannelTable) (c : ChannelSpec) :
    ChannelTable :=
  match lookupA channels c.source with
  | some targets =>
    let kept := targets.filter fun e =>
      ¬(e.1 = c.target ∧ e.2.1 = c.source_handle ∧ e.2.2 = c.target_handle)
    if kept.isEmpty then removeA channels c.source
    else setA channels c.source kept
  | none => channels

/-- Modelled from the spec: AgentStream::add_channel, whose current revision
is not under src (the stream.rs in the snapshot is an older nodes/edges
revision); the spec describes a stream spec as an ordered sequence of
ChannelSpecs, so adding a channel appends it. -/
def stream_add_channel (chans : List ChannelSpec) (c : ChannelSpec) :
    List ChannelSpec :=
  chans ++ [c]

/-- The hub state read and written by add_channel. -/
structure HubChannels where
  streams : List (String × List ChannelSpec)
  channels : ChannelTable

/-- ASKit::add_channel (askit.rs lines 405-432): checks that the source and
target agents exist, rejects empty handles, requires the stream, appends the
channel to the stream spec, then inserts into the channels table through
add_channel_internal (whose duplicate error propagates after the stream
append, which is not rolled back). -/
def add_channel (agents : List String) (st : HubChannels) (stream_id : String)
    (c : ChannelSpec) : HubChannels × Except AgentErr Unit :=
  if ¬ agents.contains c.source then
    (st, .error (.AgentNotFound c.source))
  else if ¬ agents.contains c.target then
    (st, .error (.AgentNotFound c.target))
  else if c.source_handle = "" then
    (st, .error .EmptySourceHandle)
  else if c.target_handle = "" then
    (st, .error .EmptyTargetHandle)
  else
    match lookupA st.streams stream_id with
    | none => (st, .error (.StreamNotFound stream_id))
    | some chans =>
      let st' : HubChannels :=
        { st with streams := setA st.streams stream_id (stream_add_channel chans c) }
      match add_channel_internal st'.channels c with
      | .ok channels' => ({ st' with channels := channels' }, .ok ())
      | .error e => (st', .error e)

/-! ## Theorems -/

/-- C1: Event-loop routing of an AgentOut event: for every channel-table
entry (target, src_pin, tgt_pin) under the source, a delivery to the target
happens if and only if the source pin equals the emitted pin or is the
wildcard and the target agent is present in the agents table; the delivered
pin is the emitted pin when the target pin is the wildcard and the target pin
otherwise; an absent target is skipped silently (the routing function changes
no state and raises no error).  This lemma characterizes the per-entry
loop. -/
theorem agent_out_loop_eq (agents : List String) (ctx : AgentContext)
    (pin : String) (value : AgentValue) (targets : ChannelTargets) :
    agent_out_loop agents ctx pin value targets =
      targets.filterMap (fun e =>
        if (e.2.1 = pin ∨ e.2.1 = "*") ∧ agents.contains e.1 then
          some ⟨e.1, ctx, if e.2.2 = "*" then pin else e.2.2, value⟩
        else none) := by
  induction targets with
  | nil => rfl
  | cons e rest ih =>
    obtain ⟨t, sp, tp⟩ := e
    by_cases h1 : sp = pin ∨ sp = "*"
    · have hskip : ¬(sp ≠ pin ∧ sp ≠ "*") := by tauto
      by_cases h2 : t ∈ agents
      · simp [agent_out_loop, hskip, h1, h2, ih]
      · simp [agent_out_loop, hskip, h1, h2, ih]
    · have h1' : sp ≠ pin ∧ sp ≠ "*" := by tauto
      simp [agent_out_loop, h1', h1, ih]

/-- C1: Event-loop routing of an AgentOut event: for every AgentOut with a
source, context, pin and value, and every channel-table entry
(target, src_pin, tgt_pin) under the source, a delivery to the target happens
if and only if the source pin equals the emitted pin or is the wildcard and
the target agent is present in the agents table; the delivered pin is the
emitted pin when the target pin is the wildcard and the target pin otherwise;
an absent target produces a silent no-op.  The routing computed by the
source-shaped event loop coincides with the claim-shaped description on every
state and event. -/
theorem agent_out_routing (channels : ChannelTable) (agents : List String)
    (source : String) (ctx : AgentContext) (pin : String) (value : AgentValue) :
    agent_out channels agents source ctx pin value =
      agent_out_claim channels agents source ctx pin value := by
  unfold agent_out agent_out_claim
  cases h : lookupA channels source with
  | none => simp
  | some targets =>
    simp only [Option.getD_some]
    exact agent_out_loop_eq agents ctx pin value targets

/-- C3 counterexample: when the inner stop returns a domain error, the
adapter leaves the status at Stop, not Init, because the question-mark
operator propagates the error before the reset to Init runs. -/
theorem stop_error_leaves_status_stop :
    (as_agent_stop (.error (.InvalidValue "stop failure"))).1 = AgentStatus.stop ∧
    (as_agent_stop (.error (.InvalidValue "stop failure"))).1 ≠ AgentStatus.init := by
  exact ⟨rfl, by decide⟩

/-- C3 amended: after the adapter stop, the status is Init when the inner
stop succeeds; when the inner stop returns a domain error, the error
propagates and the status remains Stop (set before the inner call). -/
theorem stop_normalization (inner : Except AgentErr Unit) :
    (as_agent_stop inner).2 = inner ∧
    (as_agent_stop inner).1 =
      (match inner with
        | .ok _ => AgentStatus.init
        | .error _ => AgentStatus.stop) := by
  cases inner with
  | ok a => cases a; exact ⟨rfl, rfl⟩
  | error e => exact ⟨rfl, rfl⟩

/-- C4 counterexample: when process fails, the worker loop only logs; no
value is sent on any pin (in particular none on the err pin, whatever the
channel table subscribes), while the AgentError observer event is emitted by
the adapter and the loop continues. -/
theorem process_error_no_err_delivery :
    (agent_loop_step "agent1" (fun _ _ _ => .error (.InvalidValue "boom"))
        (.input ⟨1, none, none⟩ "in" .unit)).sends = [] ∧
    (agent_loop_step "agent1" (fun _ _ _ => .error (.InvalidValue "boom"))
        (.input ⟨1, none, none⟩ "in" .unit)).events =
      [.AgentError "agent1" "Invalid boom value"] ∧
    (agent_loop_step "agent1" (fun _ _ _ => .error (.InvalidValue "boom"))
        (.input ⟨1, none, none⟩ "in" .unit)).looping = true :=
  ⟨rfl, rfl, rfl⟩

/-- C4 amended: for every agent implemented through the AsAgent adapter, if
process returns an error then an AgentError(agent_id, message) observer event
is emitted and the worker loop continues (does not terminate); the loop sends
no value on any pin — there is no err-pin delivery. -/
theorem process_error_surfacing (agent_id : String)
    (f : AgentContext → String → AgentValue → Except AgentErr Unit)
    (ctx : AgentContext) (pin : String) (value : AgentValue) (e : AgentErr)
    (h : f ctx pin value = .error e) :
    agent_loop_step agent_id f (.input ctx pin value) =
      ⟨[.AgentError agent_id e.toMessage], [], true⟩ := by
  simp [agent_loop_step, as_agent_process, h]

/-- Witness for the amended C4 theorem at a concrete failing process. -/
theorem process_error_surfacing_witness :
    (fun (_ : AgentContext) (_ : String) (_ : AgentValue) =>
        (.error (.InvalidValue "boom") : Except AgentErr Unit))
        ⟨1, none, none⟩ "in" .unit = .error (.InvalidValue "boom") ∧
    agent_loop_step "agent1"
        (fun _ _ _ => .error (.InvalidValue "boom"))
        (.input ⟨1, none, none⟩ "in" .unit) =
      ⟨[.AgentError "agent1" (AgentErr.InvalidValue "boom").toMessage], [], true⟩ :=
  ⟨rfl, process_error_surfacing "agent1" _ ⟨1, none, none⟩ "in" .unit
    (.InvalidValue "boom") rfl⟩

/-- C5 counterexample: when the inner start fails during start_agent, the
mailbox sender has already been registered and is not removed, and the status
was set to Start by the adapter before the inner call and is not reset. -/
theorem start_failure_keeps_tx_and_start_status :
    (start_agent true true .init (.error (.InvalidValue "start failure")) [] "agent1").txs
      = ["agent1"] ∧
    (start_agent true true .init (.error (.InvalidValue "start failure")) [] "agent1").status
      = AgentStatus.start ∧
    AgentStatus.start ≠ AgentStatus.init := by
  refine ⟨rfl, rfl, by decide⟩

/-- C5 amended: when the start callback of an agent in status Init returns a
domain error, the worker exits before entering its receive loop (the agent
processes no messages) and start_agent still returns Ok, but the mailbox
sender registered before the spawn remains in the running table and the
status remains Start; an AgentError observer event carries the failure. -/
theorem start_failure_outcome (txs : List String) (agent_id : String) (e : AgentErr) :
    start_agent true true .init (.error e) txs agent_id =
      ⟨(if txs.contains agent_id then txs else txs ++ [agent_id]),
        .start, .ok (), false, [.AgentError agent_id e.toMessage]⟩ := by
  simp [start_agent]

/-- C9: with_var and push_frame are pure derivations of an immutable receiver
(the Rust signatures take the context by shared reference, so the original is
never written): with_var leaves the frames unchanged and push_frame leaves
the vars unchanged, both preserve the id, and the id is preserved across any
sequence of repeated derivations. -/
theorem context_derivation_id_preserved (ctx : AgentContext) (k : String)
    (v : AgentValue) (name : String) (data : AgentValue) (steps : List DerivStep) :
    (ctx.with_var k v).id = ctx.id ∧
    (ctx.with_var k v).frames = ctx.frames ∧
    (ctx.push_frame name data).id = ctx.id ∧
    (ctx.push_frame name data).vars = ctx.vars ∧
    (applyDerivs ctx steps).id = ctx.id := by
  refine ⟨rfl, rfl, rfl, rfl, ?_⟩
  induction steps generalizing ctx with
  | nil => rfl
  | cons s rest ih =>
    have hstep : (applyDeriv ctx s).id = ctx.id := by
      cases s <;> rfl
    have : applyDerivs ctx (s :: rest) = applyDerivs (applyDeriv ctx s) rest := rfl
    rw [this, ih (applyDeriv ctx s), hstep]

/-- C6: Config-pin routing in agent_input: for an existing agent, a pin
beginning with config: is routed as a Config whose key is the suffix after
config: (invoking set_config) rather than as an Input; when the agent has no
mailbox, a Config takes effect synchronously through set_config while an
Input returns success with no effect; when the agent is running, both kinds
go through the mailbox. -/
theorem config_pin_routing (hasTx present sendOk : Bool)
    (set_config : String → AgentValue → Except AgentErr Unit)
    (agent_id : String) (ctx : AgentContext) (pin : String) (value : AgentValue) :
    (strStarts pin "config:" = true → hasTx = false → present = true →
      agent_input hasTx present sendOk set_config agent_id ctx pin value =
        (match set_config (strDrop pin 7) value with
          | .ok _ => .ok (.syncSetConfig (strDrop pin 7) value, [])
          | .error e => .error e)) ∧
    (strStarts pin "config:" = false → hasTx = false → present = true →
      agent_input hasTx present sendOk set_config agent_id ctx pin value =
        .ok (.droppedInput, [])) ∧
    (hasTx = true → sendOk = true →
      agent_input hasTx present sendOk set_config agent_id ctx pin value =
        .ok (.sentToMailbox
          (if strStarts pin "config:" then .config (strDrop pin 7) value
            else .input ctx pin value),
          [.AgentIn agent_id pin])) := by
  refine ⟨?_, ?_, ?_⟩
  · intro hc htx hp
    subst htx; subst hp
    cases hr : set_config (strDrop pin 7) value <;>
      simp [agent_input, hc, hr]
  · intro hc htx hp
    subst htx; subst hp
    simp [agent_input, hc]
  · intro htx hok
    subst htx; subst hok
    by_cases hc : strStarts pin "config:" <;> simp [agent_input, hc]

/-- Witness for the C6 theorem: a config: pin on a stopped agent is applied
synchronously with the suffix as the key, and an ordinary pin on a stopped
agent is dropped with success. -/
theorem config_pin_routing_witness :
    (strStarts "config:name" "config:" = true) ∧
    agent_input false true false (fun _ _ => .ok ()) "agent1" ⟨1, none, none⟩
        "config:name" .unit =
      .ok (.syncSetConfig "name" .unit, []) ∧
    (strStarts "in" "config:" = false) ∧
    agent_input false true false (fun _ _ => .ok ()) "agent1" ⟨1, none, none⟩
        "in" .unit = .ok (.droppedInput, []) := by
  refine ⟨by decide, ?_, by decide, ?_⟩
  · have h := (config_pin_routing false true false (fun _ _ => .ok ()) "agent1"
      ⟨1, none, none⟩ "config:name" .unit).1 (by decide) rfl rfl
    simpa using h
  · exact (config_pin_routing false true false (fun _ _ => .ok ()) "agent1"
      ⟨1, none, none⟩ "in" .unit).2.1 (by decide) rfl rfl

/-- C10: agent_input posts an AgentIn(agent_id, pin) observer event exactly
when it successfully enqueues a message into a running agent's mailbox; the
event carries the full incoming pin string, including the whole config:key
pin for Config messages; no observer event is posted when the agent is not
running (synchronous config application or silent drop) or when the send
fails. -/
theorem agent_in_event_emission (hasTx present sendOk : Bool)
    (set_config : String → AgentValue → Except AgentErr Unit)
    (agent_id : String) (ctx : AgentContext) (pin : String) (value : AgentValue) :
    inputEvents (agent_input hasTx present sendOk set_config agent_id ctx pin value) =
      if hasTx && sendOk then [ASKitEvent.AgentIn agent_id pin] else [] := by
  cases hasTx with
  | true =>
    cases sendOk <;> simp [agent_input, inputEvents]
  | false =>
    cases present with
    | true =>
      by_cases hc : strStarts pin "config:"
      · cases hr : set_config (strDrop pin 7) value <;>
          simp [agent_input, inputEvents, hc, hr]
      · simp [agent_input, inputEvents, hc]
    | false => simp [agent_input, inputEvents]

/-- C7 counterexample: the claim asserts that a successful push_map_frame(i, n)
pushes a map frame carrying {index: i, length: n}; at the valid input
i = 2^63, n = 2^63 + 1 the program stores the wrapped i64 payloads
-(2^63) and -(2^63) + 1 (the `index as i64` and `len as i64` casts wrap),
which differ from i and n. -/
theorem map_frame_payload_wraps :
    AgentContext.push_map_frame ⟨1, none, none⟩ (2 ^ 63) (2 ^ 63 + 1) =
      .ok (AgentContext.push_frame ⟨1, none, none⟩ "map"
        (.object [("index", .integer (-(2 ^ 63))),
          ("length", .integer (-(2 ^ 63) + 1))])) ∧
    AgentValue.integer (-(2 ^ 63)) ≠ AgentValue.integer ((2 ^ 63 : Nat) : Int) := by
  constructor
  · rfl
  · intro h
    rw [AgentValue.integer.injEq] at h
    exact absurd h (by decide)

/-- C7 amended: push_map_frame fails with InvalidValue exactly when the
length is zero or the index is out of bounds, and otherwise pushes a map
frame whose data object carries the index and length through the wrapping
usize-to-i64 casts of the source (exactly i and n whenever they are below
2^63); pop_map_frame fails exactly when the frame stack is empty or its top
frame is not a map frame. -/
theorem map_frame_validation (ctx : AgentContext) (i n : Nat) :
    ((∃ msg, ctx.push_map_frame i n = .error (.InvalidValue msg)) ↔ (n = 0 ∨ n ≤ i)) ∧
    (n ≠ 0 → i < n →
      ctx.push_map_frame i n =
        .ok (ctx.push_frame "map"
          (.object [("index", .integer (usizeAsI64 i)),
            ("length", .integer (usizeAsI64 n))]))) ∧
    (i < 2 ^ 63 → usizeAsI64 i = (i : Int)) ∧
    ((∃ e, ctx.pop_map_frame = .error e) ↔
      (ctx.lastFrame = none ∨ ∃ f, ctx.lastFrame = some f ∧ f.name ≠ "map")) := by
  have hdata : map_frame_data i n =
      AgentValue.object [("index", .integer (usizeAsI64 i)),
        ("length", .integer (usizeAsI64 n))] := rfl
  refine ⟨?_, ?_, ?_, ?_⟩
  · by_cases h0 : n = 0
    · simp [AgentContext.push_map_frame, h0]
    · by_cases hge : i ≥ n
      · simp [AgentContext.push_map_frame, h0, hge]
      · simp [AgentContext.push_map_frame, h0, hge]
  · intro h0 hlt
    rw [AgentContext.push_map_frame, if_neg h0, if_neg (by omega), hdata]
  · intro hi
    simp only [usizeAsI64]
    rw [Nat.mod_eq_of_lt (by omega), if_pos hi]
  · unfold AgentContext.pop_map_frame AgentContext.pop_frame AgentContext.lastFrame
    cases hf : ctx.frames with
    | none => simp
    | some fs =>
      cases hl : fs.getLast? with
      | none =>
        have hfs : fs = [] := by
          cases fs with
          | nil => rfl
          | cons a rest => simp at hl
        simp [hl, hfs]
      | some f =>
        have hne : fs ≠ [] := by
          intro h
          rw [h] at hl
          simp at hl
        by_cases hname : f.name = "map"
        · simp [hl, hname, hne]
        · simp [hl, hname, hne]

/-- Witness for the C7 theorem: pushing a valid map frame on a fresh context
succeeds and records index 0 of length 2. -/
theorem map_frame_validation_witness :
    (2 ≠ 0) ∧ (0 < 2) ∧
    AgentContext.push_map_frame ⟨1, none, none⟩ 0 2 =
      .ok (AgentContext.push_frame ⟨1, none, none⟩ "map"
        (.object [("index", .integer 0), ("length", .integer 2)])) :=
  ⟨by decide, by decide,
    (map_frame_validation ⟨1, none, none⟩ 0 2).2.1 (by decide) (by decide)⟩

theorem lookupA_setA (l : List (String × α)) (k : String) (v : α) :
    lookupA (setA l k v) k = (lookupA l k).map fun _ => v := by
  induction l with
  | nil => rfl
  | cons p rest ih =>
    obtain ⟨k', v'⟩ := p
    simp only [setA, List.map_cons]
    by_cases h : k' = k
    · rw [if_pos h]
      subst h
      simp [lookupA]
    · rw [if_neg h]
      simp only [lookupA, if_neg h]
      simpa [setA] using ih

theorem lookupA_removeA (l : List (String × α)) (k : String) :
    lookupA (removeA l k) k = none := by
  induction l with
  | nil => rfl
  | cons p rest ih =>
    obtain ⟨k', v'⟩ := p
    by_cases h : k' = k
    · simp only [removeA, List.filter_cons, h]
      simpa [removeA] using ih
    · simp only [removeA, List.filter_cons, h]
      simp only [decide_not, decide_eq_true_eq]
      rw [if_pos (by simp [h])]
      simp only [lookupA, if_neg h]
      simpa [removeA] using ih

/-- C8: Channel-table integrity: inserting a channel whose quadruple already
exists fails with ChannelAlreadyExists; inserting a channel with an empty
source or target pin is rejected; removing a channel by quadruple leaves the
table free of that quadruple and removes the source key when its target list
becomes empty. -/
theorem channel_table_integrity (agents : List String) (st : HubChannels)
    (stream_id : String) (c : ChannelSpec) (channels : ChannelTable) :
    (agents.contains c.source = true → agents.contains c.target = true →
      c.source_handle ≠ "" → c.target_handle ≠ "" →
      ∀ chans, lookupA st.streams stream_id = some chans →
      ∀ targets, lookupA st.channels c.source = some targets →
      quadrupleIn targets c = true →
      (add_channel agents st stream_id c).2 = .error .ChannelAlreadyExists) ∧
    (agents.contains c.source = true → agents.contains c.target = true →
      c.source_handle = "" →
      (add_channel agents st stream_id c).2 = .error .EmptySourceHandle) ∧
    (agents.contains c.source = true → agents.contains c.target = true →
      c.source_handle ≠ "" → c.target_handle = "" →
      (add_channel agents st stream_id c).2 = .error .EmptyTargetHandle) ∧
    (∀ ts, lookupA (remove_channel_internal channels c) c.source = some ts →
      quadrupleIn ts c = false) ∧
    (∀ targets, lookupA channels c.source = some targets →
      (targets.filter fun e =>
        ¬(e.1 = c.target ∧ e.2.1 = c.source_handle ∧ e.2.2 = c.target_handle)) = [] →
      lookupA (remove_channel_internal channels c) c.source = none) := by
  refine ⟨?_, ?_, ?_, ?_, ?_⟩
  · intro hs ht hsh hth chans hchans targets htargets hdup
    simp only [add_channel, if_neg (not_not_intro hs), if_neg (not_not_intro ht),
      if_neg hsh, if_neg hth, hchans]
    simp only [add_channel_internal, htargets, hdup, if_pos]
  · intro hs ht hsh
    have hs' : c.source ∈ agents := by simpa using hs
    have ht' : c.target ∈ agents := by simpa using ht
    simp [add_channel, hs', ht', hsh]
  · intro hs ht hsh hth
    have hs' : c.source ∈ agents := by simpa using hs
    have ht' : c.target ∈ agents := by simpa using ht
    simp [add_channel, hs', ht', hsh, hth]
  · intro ts hts
    unfold remove_channel_internal at hts
    cases hlook : lookupA channels c.source with
    | none =>
      simp only [hlook] at hts
      cases hts
    | some targets =>
      simp only [hlook] at hts
      split at hts
      · rw [lookupA_removeA] at hts
        cases hts
      · rw [lookupA_setA, hlook] at hts
        simp only [Option.map] at hts
        cases hts
        rw [quadrupleIn, List.any_eq_false]
        intro e he
        have hmem := List.mem_filter.mp he
        have hne := hmem.2
        simp only [decide_not, decide_eq_true_eq, Bool.not_eq_eq_eq_not,
          Bool.not_true, decide_eq_false_iff_not] at hne
        intro htrue
        simp only [Bool.and_eq_true, decide_eq_true_eq] at htrue
        exact hne ⟨htrue.1.1, htrue.1.2, htrue.2⟩
  · intro targets hlook hkept
    unfold remove_channel_internal
    simp only [hlook]
    rw [hkept]
    simp [lookupA_removeA]

/-- Witness for the C8 theorem: adding the concrete channel a.p to b.q twice
fails with ChannelAlreadyExists. -/
theorem channel_table_integrity_witness :
    (["a", "b"].contains "a" = true) ∧
    (["a", "b"].contains "b" = true) ∧
    ("p" ≠ "") ∧ ("q" ≠ "") ∧
    (lookupA [("s", ([] : List ChannelSpec))] "s" = some []) ∧
    (lookupA [("a", [("b", "p", "q")])] "a" = some [("b", "p", "q")]) ∧
    (quadrupleIn [("b", "p", "q")] ⟨"a", "p", "b", "q"⟩ = true) ∧
    (add_channel ["a", "b"] ⟨[("s", [])], [("a", [("b", "p", "q")])]⟩ "s"
        ⟨"a", "p", "b", "q"⟩).2 = .error .ChannelAlreadyExists :=
  ⟨by decide, by decide, by decide, by decide, rfl, rfl, by decide,
    (channel_table_integrity ["a", "b"] ⟨[("s", [])], [("a", [("b", "p", "q")])]⟩
        "s" ⟨"a", "p", "b", "q"⟩ []).1
      (by decide) (by decide) (by decide) (by decide) [] rfl [("b", "p", "q")] rfl
      (by decide)⟩

theorem strLtAux_irrefl (as : List Char) : strLtAux as as = false := by
  induction as with
  | nil => rfl
  | cons a rest ih => simp [strLtAux, ih]

theorem strLtAux_asymm (as : List Char) :
    ∀ bs, strLtAux as bs = true → strLtAux bs as = false := by
  induction as with
  | nil =>
    intro bs h
    cases bs with
    | nil => cases h
    | cons b rest => rfl
  | cons a as ih =>
    intro bs h
    cases bs with
    | nil => cases h
    | cons b bs =>
      by_cases h1 : a.toNat < b.toNat
      · have h2 : ¬ b.toNat < a.toNat := by omega
        simp [strLtAux, h1, h2]
      · by_cases h2 : b.toNat < a.toNat
        · rw [strLtAux, if_neg h1, if_pos h2] at h
          cases h
        · rw [strLtAux, if_neg h1, if_neg h2] at h
          rw [strLtAux, if_neg h2, if_neg h1]
          exact ih bs h

theorem strLt_irrefl (a : String) : strLt a a = false := strLtAux_irrefl a.data

theorem strLt_asymm {a b : String} (h : strLt a b = true) : strLt b a = false :=
  strLtAux_asymm a.data b.data h

theorem strLt_ne {a b : String} (h : strLt a b = true) : a ≠ b := by
  intro heq
  rw [heq, strLt_irrefl] at h
  cases h

theorem insertAList_append (k : String) (v : α) (acc : List (String × α))
    (h : ∀ p ∈ acc, strLt p.1 k = true) :
    insertAList k v acc = acc ++ [(k, v)] := by
  induction acc with
  | nil => rfl
  | cons p rest ih =>
    obtain ⟨k', v'⟩ := p
    have hlt : strLt k' k = true := h (k', v') (by simp)
    have h1 : ¬ strLt k k' = true := by
      rw [strLt_asymm hlt]
      simp
    have h2 : k ≠ k' := fun heq => strLt_ne hlt heq.symm
    rw [insertAList, if_neg h1, if_neg h2,
      ih (fun p hp => h p (List.mem_cons_of_mem _ hp))]
    rfl

theorem to_json_entries_append (a b : List (String × AgentValue)) :
    to_json_entries (a ++ b) = to_json_entries a ++ to_json_entries b := by
  induction a with
  | nil => rfl
  | cons p rest ih =>
    obtain ⟨k, v⟩ := p
    simp [to_json_entries, ih]

theorem wf_list_mem {ys : List Json} (h : Json.wf_list ys = true) :
    ∀ y ∈ ys, y.wf = true := by
  induction ys with
  | nil => intro y hy; cases hy
  | cons x rest ih =>
    rw [Json.wf_list, Bool.and_eq_true] at h
    intro y hy
    cases hy with
    | head => exact h.1
    | tail _ hmem => exact ih h.2 y hmem

theorem wf_entries_head {k : String} {x : Json} {rest : List (String × Json)}
    (h : Json.wf_entries ((k, x) :: rest) = true) :
    x.wf = true ∧ (∀ q ∈ rest, strLt k q.1 = true) ∧ Json.wf_entries rest = true := by
  rw [Json.wf_entries, Bool.and_eq_true, Bool.and_eq_true] at h
  refine ⟨h.1.1, ?_, h.2⟩
  intro q hq
  exact List.all_eq_true.mp h.1.2 q hq

theorem wf_entries_val {kvs : List (String × Json)} (h : Json.wf_entries kvs = true) :
    ∀ kv ∈ kvs, kv.2.wf = true := by
  induction kvs with
  | nil => intro kv hkv; cases hkv
  | cons p rest ih =>
    obtain ⟨k, x⟩ := p
    obtain ⟨hx, _, hrest⟩ := wf_entries_head h
    intro kv hkv
    cases hkv with
    | head => exact hx
    | tail _ hmem => exact ih hrest kv hmem

theorem from_to_list (ys : List Json)
    (h : ∀ y ∈ ys, Except.map to_json (from_json y) = .ok y) :
    Except.map to_json_list (from_json_list ys) = .ok ys := by
  induction ys with
  | nil => rfl
  | cons y rest ih =>
    have hy := h y (by simp)
    cases hfy : from_json y with
    | error e => rw [hfy] at hy; cases hy
    | ok v =>
      rw [hfy] at hy
      have hv : to_json v = y := by
        simpa [Except.map] using hy
      have hrest := ih fun z hz => h z (List.mem_cons_of_mem _ hz)
      cases hfl : from_json_list rest with
      | error e => rw [hfl] at hrest; cases hrest
      | ok l =>
        rw [hfl] at hrest
        have hl : to_json_list l = rest := by
          simpa [Except.map] using hrest
        rw [from_json_list, hfy, hfl]
        simp [Except.map, to_json_list, hv, hl]

theorem from_to_entries (kvs : List (String × Json)) :
    ∀ acc : List (String × AgentValue),
    (∀ kv ∈ kvs, Except.map to_json (from_json kv.2) = .ok kv.2) →
    (∀ p ∈ acc, ∀ q ∈ kvs, strLt p.1 q.1 = true) →
    Json.wf_entries kvs = true →
    Except.map to_json_entries (from_json_entries kvs acc) =
      .ok (to_json_entries acc ++ kvs) := by
  induction kvs with
  | nil =>
    intro acc _ _ _
    simp [from_json_entries, Except.map]
  | cons p rest ih =>
    obtain ⟨k, x⟩ := p
    intro acc helts hacc hwf
    obtain ⟨hxwf, hkrest, hrestwf⟩ := wf_entries_head hwf
    have hx := helts (k, x) (by simp)
    cases hfx : from_json x with
    | error e => rw [hfx] at hx; cases hx
    | ok v =>
      rw [hfx] at hx
      have hv : to_json v = x := by
        simpa [Except.map] using hx
      have hins : insertAList k v acc = acc ++ [(k, v)] :=
        insertAList_append k v acc fun p hp => hacc p hp (k, x) (by simp)
      have hacc' : ∀ p ∈ acc ++ [(k, v)], ∀ q ∈ rest, strLt p.1 q.1 = true := by
        intro p hp q hq
        rcases List.mem_append.mp hp with hp | hp
        · exact hacc p hp q (List.mem_cons_of_mem _ hq)
        · have : p = (k, v) := by simpa using hp
          rw [this]
          exact hkrest q hq
      have helts' : ∀ kv ∈ rest, Except.map to_json (from_json kv.2) = .ok kv.2 :=
        fun kv hkv => helts kv (List.mem_cons_of_mem _ hkv)
      have hrec := ih (acc ++ [(k, v)]) helts' hacc' hrestwf
      rw [from_json_entries, hfx]
      show Except.map to_json_entries (from_json_entries rest (insertAList k v acc)) = _
      rw [hins, hrec, to_json_entries_append]
      simp [to_json_entries, hv]

theorem json_round_trip_aux :
    ∀ (m : Nat) (x : Json), sizeOf x ≤ m → x.wf = true →
      Except.map to_json (from_json x) = Except.ok x := by
  intro m
  induction m with
  | zero =>
    intro x hsize _
    cases x <;> simp_arith at hsize
  | succ m ih =>
    intro x hsize hwf
    match x with
    | .null => rfl
    | .bool b => rfl
    | .str s => rfl
    | .num (.posInt n) =>
      have hn : (n : Int) ≤ i64Max := by
        simpa [Json.wf] using hwf
      have hcast : ((n : Int)).toNat = n := Int.toNat_natCast n
      rw [from_json, JsonNumber.as_i64, if_pos hn]
      simp [Except.map, to_json, Int.natCast_nonneg, hcast]
    | .num (.negInt i) =>
      have hi : i64Min ≤ i ∧ i < 0 := by
        simpa [Json.wf] using hwf
      have hneg : ¬ (0 ≤ i) := by omega
      rw [from_json, JsonNumber.as_i64]
      simp [Except.map, to_json, hneg]
    | .num (.float q) => rfl
    | .arr xs =>
      have hxs : sizeOf xs ≤ m := by
        have : sizeOf (Json.arr xs) = 1 + sizeOf xs := by simp
        omega
      have helts : ∀ y ∈ xs, Except.map to_json (from_json y) = .ok y := by
        intro y hy
        have hlt : sizeOf y < sizeOf xs := List.sizeOf_lt_of_mem hy
        exact ih y (by omega) (wf_list_mem (by simpa [Json.wf] using hwf) y hy)
      have hlist := from_to_list xs helts
      cases hfl : from_json_list xs with
      | error e => rw [hfl] at hlist; cases hlist
      | ok l =>
        rw [hfl] at hlist
        have hl : to_json_list l = xs := by
          simpa [Except.map] using hlist
        rw [from_json, hfl]
        simp [Except.map, to_json, hl]
    | .obj kvs =>
      have hkvs : sizeOf kvs ≤ m := by
        have : sizeOf (Json.obj kvs) = 1 + sizeOf kvs := by simp
        omega
      have hwfe : Json.wf_entries kvs = true := by simpa [Json.wf] using hwf
      have helts : ∀ kv ∈ kvs, Except.map to_json (from_json kv.2) = .ok kv.2 := by
        intro kv hkv
        have hlt : sizeOf kv < sizeOf kvs := List.sizeOf_lt_of_mem hkv
        have hlt2 : sizeOf kv.2 < sizeOf kv := by
          obtain ⟨a, b⟩ := kv
          simp_arith
        exact ih kv.2 (by omega) (wf_entries_val hwfe kv hkv)
      have hentries := from_to_entries kvs [] helts (by intro p hp; cases hp) hwfe
      cases hfe : from_json_entries kvs [] with
      | error e => rw [hfe] at hentries; cases hentries
      | ok entries =>
        rw [hfe] at hentries
        have he : to_json_entries entries = kvs := by
          simpa [Except.map, to_json_entries] using hentries
        rw [from_json, hfe]
        simp [Except.map, to_json, he]

/-- C2 counterexample: the claim asserts that an integer-valued JSON float
canonicalizes to an integer through the round trip; on the code, from_json
turns the float 3.0 into a Number (serde_json as_i64 never converts floats)
and to_json returns it as the float 3.0, which differs from the integer 3.
The repository value tests pin the same behavior. -/
theorem float_not_canonicalized :
    Except.map to_json (from_json (Json.num (.float 3))) =
      .ok (Json.num (.float 3)) ∧
    Json.num (.float 3) ≠ Json.num (.posInt 3) := by
  refine ⟨rfl, ?_⟩
  intro h
  simp at h

/-- C2 amended: for every JSON tree whose integer payloads fit in i64 (with
the image feature disabled), to_json after from_json reproduces the tree
exactly: integers stay integers, floats stay floats (integer-valued floats
are not canonicalized), and strings, arrays and objects round trip
structurally. -/
theorem value_json_round_trip (x : Json) (h : x.wf = true) :
    Except.map to_json (from_json x) = Except.ok x :=
  json_round_trip_aux (sizeOf x) x (le_refl _) h

/-- Witness for the C2 amended theorem on a concrete nested tree. -/
theorem value_json_round_trip_witness :
    (Json.obj [("a", .num (.posInt 1)),
      ("b", .arr [.num (.float (3 / 2)), .str "hi", .null, .bool true]),
      ("c", .num (.negInt (-5)))]).wf = true ∧
    Except.map to_json (from_json (Json.obj [("a", .num (.posInt 1)),
      ("b", .arr [.num (.float (3 / 2)), .str "hi", .null, .bool true]),
      ("c", .num (.negInt (-5)))])) =
      Except.ok (Json.obj [("a", .num (.posInt 1)),
        ("b", .arr [.num (.float (3 / 2)), .str "hi", .null, .bool true]),
        ("c", .num (.negInt (-5)))]) :=
  ⟨by decide, value_json_round_trip _ (by decide)⟩

end ASKit
